import Mathlib

/-!
Verification of `scripts/check_one_type_per_file.py`.

Shallow embedding conventions:
* a byte string (`bytes`) is a `List Nat` of byte values;
* a Python `str` is a `List Nat` of Unicode code points;
* fallible decoding returns `Option` (a strict codec) or `Except Unit`
  (the whole reader, whose `error` models an uncaught `UnicodeDecodeError`).

The character classes `\s` and `\w` of Python's `re` module over `str` are
modelled by `isPySpace` (the full Python whitespace set) and `isPyWord`
(restricted to the ASCII range `[0-9A-Za-z_]`; the non-ASCII word
characters play no role in any claim, and both sides of every equivalence
below use the same class).
-/

namespace CheckOneType

/-- Python `re` class `\s` on `str` (Unicode whitespace). -/
def isPySpace (c : Nat) : Bool :=
  decide (c = 32 ∨ c = 9 ∨ c = 10 ∨ c = 11 ∨ c = 12 ∨ c = 13 ∨
    (28 ≤ c ∧ c ≤ 31) ∨ c = 133 ∨ c = 160 ∨ c = 5760 ∨
    (8192 ≤ c ∧ c ≤ 8202) ∨ c = 8232 ∨ c = 8233 ∨ c = 8239 ∨
    c = 8287 ∨ c = 12288)

/-- Python `re` class `\w`, ASCII fragment: `[0-9A-Za-z_]`. -/
def isPyWord (c : Nat) : Bool :=
  decide ((48 ≤ c ∧ c ≤ 57) ∨ (65 ≤ c ∧ c ≤ 90) ∨ (97 ≤ c ∧ c ≤ 122) ∨ c = 95)

/-- The line-boundary code points of Python `str.splitlines`. -/
def isLineBreakCp (c : Nat) : Bool :=
  decide (c = 10 ∨ c = 13 ∨ c = 11 ∨ c = 12 ∨ (28 ≤ c ∧ c ≤ 30) ∨
    c = 133 ∨ c = 8232 ∨ c = 8233)

/-- Code points of a string literal (for ASCII text these are also its bytes). -/
def cpsOf (s : String) : List Nat := s.toList.map Char.toNat

/-! ## `DECLARATION_RE`

Source: `re.compile(r'^\s*(public|internal|protected|private)?\s*(partial\s+)?(class|struct|enum)\s+\w+')`,
used through `re.match` (anchored at the start of the line).

The matcher below renders the regex directly.  The alternations
`(...)?` become `Bool` disjunctions (`||` = the backtracking choice);
`\s*` / the `\s` of `\s+` become `dropWhile isPySpace` / a mandatory
space plus `dropWhile isPySpace`, which is equivalent to the regex's
greedy repetition because every literal that can follow a space run in
this pattern starts with a non-space character, and `\w` and `\s` are
disjoint.
-/

def accessKws : List (List Nat) :=
  [cpsOf ("public"), cpsOf ("internal"), cpsOf ("protected"), cpsOf ("private")]

def kindKws : List (List Nat) :=
  [cpsOf ("class"), cpsOf ("struct"), cpsOf ("enum")]

/-- The `partial` modifier keyword of the regex. -/
def modKeyword : List Nat := cpsOf ("partial")

/-- `\w` applied to the head of the rest of the line (`\w+` needs one word
character; the rest of the line is unconstrained). -/
def headWord (l : List Nat) : Bool :=
  match l with
  | [] => false
  | d :: _ => isPyWord d

/-- `\s+\w+`: one mandatory space, the rest of the space run, a word character. -/
def matchTail (l : List Nat) : Bool :=
  match l with
  | [] => false
  | c :: rest => isPySpace c && headWord (rest.dropWhile isPySpace)

/-- `(class|struct|enum)\s+\w+`. -/
def matchKind (l : List Nat) : Bool :=
  kindKws.any fun kw => kw.isPrefixOf l && matchTail (l.drop kw.length)

/-- `\s+` then `(class|struct|enum)\s+\w+` (the tail of the `partial\s+` group). -/
def matchSpacesThenKind (l : List Nat) : Bool :=
  match l with
  | [] => false
  | c :: rest => isPySpace c && matchKind (rest.dropWhile isPySpace)

/-- `(partial\s+)?(class|struct|enum)\s+\w+`. -/
def matchAfterAccess (l : List Nat) : Bool :=
  (modKeyword.isPrefixOf l && matchSpacesThenKind (l.drop modKeyword.length))
    || matchKind l

/-- `re.match(DECLARATION_RE, line)` as a Boolean. -/
def declarationReMatch (line : List Nat) : Bool :=
  (accessKws.any fun kw =>
      kw.isPrefixOf (line.dropWhile isPySpace) &&
        matchAfterAccess (((line.dropWhile isPySpace).drop kw.length).dropWhile isPySpace))
    || matchAfterAccess (line.dropWhile isPySpace)

/-! ## `str.splitlines` -/

/-- Worker for `str.splitlines`: `acc` holds the current line reversed and
`afterCR` records that the previous character was a carriage return, so
that the line feed of a `\r\n` pair is consumed silently. -/
def splitGo : Bool → List Nat → List Nat → List (List Nat)
  | _, [], acc => if acc.isEmpty then [] else [acc.reverse]
  | afterCR, c :: rest, acc =>
    if afterCR = true ∧ c = 10 then splitGo false rest acc
    else if c = 13 then acc.reverse :: splitGo true rest []
    else if isLineBreakCp c then acc.reverse :: splitGo false rest []
    else splitGo false rest (c :: acc)

/-- Python `str.splitlines()` (no trailing empty line, `\r\n` is one break). -/
def pySplitlines (t : List Nat) : List (List Nat) := splitGo false t []

/-! ## Declaration counter (body of `check_file` after decoding) -/

/-- `if not text: return 0` followed by the `splitlines` counting loop. -/
def countDeclarations (t : List Nat) : Nat :=
  if t = [] then 0 else ((pySplitlines t).countP declarationReMatch)

/-! ## Codecs

Strict codecs return `none` exactly where CPython's `bytes.decode(enc,
errors='strict')` raises `UnicodeDecodeError`.
-/

/-- Worker for strict UTF-8 decoding, a byte-level automaton.
`rem` is the number of continuation bytes still expected (`0` = expect a
lead byte), `acc` the partial scalar value, and `[lo, hi)` the window
allowed for the next continuation byte (the per-lead windows implement
the rejection of overlong forms, surrogates and values above
`U+10FFFF`; after the first continuation byte the window is the generic
`[80, C0)`). -/
def utf8Go : List Nat → Nat → Nat → Nat → Nat → Option (List Nat)
  | [], rem, _, _, _ => if rem = 0 then some [] else none
  | b :: rest, rem, acc, lo, hi =>
    if rem = 0 then
      if b < 128 then (utf8Go rest 0 0 0 0).map (b :: ·)
      else if b < 194 then none
      else if b < 224 then utf8Go rest 1 (b - 192) 128 192
      else if b = 224 then utf8Go rest 2 0 160 192
      else if b = 237 then utf8Go rest 2 13 128 160
      else if b < 240 then utf8Go rest 2 (b - 224) 128 192
      else if b = 240 then utf8Go rest 3 0 144 192
      else if b = 244 then utf8Go rest 3 4 128 144
      else if b < 245 then utf8Go rest 3 (b - 240) 128 192
      else none
    else
      if lo ≤ b ∧ b < hi then
        if rem = 1 then (utf8Go rest 0 0 0 0).map ((acc * 64 + (b - 128)) :: ·)
        else utf8Go rest (rem - 1) (acc * 64 + (b - 128)) 128 192
      else none

/-- `bytes.decode('utf-8', errors='strict')`: rejects stray continuation
bytes, overlong forms (`C0`/`C1` leads, `E0 80-9F`, `F0 80-8F`),
surrogates (`ED A0-BF`), values above `U+10FFFF` (`F4 90-`, `F5-FF`
leads) and truncated sequences. -/
def utf8Decode (l : List Nat) : Option (List Nat) := utf8Go l 0 0 0 0

/-- `bytes.decode('utf-8', errors='ignore')`: same branches as the strict
decoder, but an undecodable lead (or a lead whose continuation bytes are
bad) is dropped and decoding resumes; a sequence truncated at end of
input is dropped.  (CPython may skip an invalid multi-byte prefix as one
unit where this model skips the lead byte only; the distinction is
unobservable here because, `latin-1` being total, this code path is
unreachable from `read_text_with_fallback` — proved below.) -/
def utf8LossyDecode : List Nat → List Nat
  | [] => []
  | b :: rest =>
    if b < 128 then b :: utf8LossyDecode rest
    else if b < 194 then utf8LossyDecode rest
    else if b < 224 then
      match rest with
      | b2 :: rest2 =>
        if 128 ≤ b2 ∧ b2 < 192 then
          ((b - 192) * 64 + (b2 - 128)) :: utf8LossyDecode rest2
        else utf8LossyDecode (b2 :: rest2)
      | [] => []
    else if b < 240 then
      match rest with
      | b2 :: b3 :: rest3 =>
        if (if b = 224 then 160 ≤ b2 ∧ b2 < 192
            else if b = 237 then 128 ≤ b2 ∧ b2 < 160
            else 128 ≤ b2 ∧ b2 < 192) ∧ (128 ≤ b3 ∧ b3 < 192) then
          ((b - 224) * 4096 + (b2 - 128) * 64 + (b3 - 128)) :: utf8LossyDecode rest3
        else utf8LossyDecode (b2 :: b3 :: rest3)
      | _ => []
    else if b < 245 then
      match rest with
      | b2 :: b3 :: b4 :: rest4 =>
        if (if b = 240 then 144 ≤ b2 ∧ b2 < 192
            else if b = 244 then 128 ≤ b2 ∧ b2 < 144
            else 128 ≤ b2 ∧ b2 < 192) ∧ (128 ≤ b3 ∧ b3 < 192) ∧
            (128 ≤ b4 ∧ b4 < 192) then
          ((b - 240) * 262144 + (b2 - 128) * 4096 + (b3 - 128) * 64 + (b4 - 128))
            :: utf8LossyDecode rest4
        else utf8LossyDecode (b2 :: b3 :: b4 :: rest4)
      | _ => []
    else utf8LossyDecode rest

/-- Worker for strict UTF-16 decoding, a byte-level automaton.
`unitOf` combines the two bytes of a code unit (the byte order).  Modes:
`0` = at a unit boundary, no pending surrogate; `1` = saw first byte
`b0` of a unit; `2` = saw a high surrogate `uh`, at a unit boundary;
`3`/other = saw first byte `b0` of the unit following a high surrogate
`uh` (that unit must be a low surrogate).  Ending in any mode but `0`
raises (truncated data / unpaired surrogate). -/
def utf16Go (unitOf : Nat → Nat → Nat) : List Nat → Nat → Nat → Nat → Option (List Nat)
  | [], mode, _, _ => if mode = 0 then some [] else none
  | b :: rest, mode, uh, b0 =>
    if mode = 0 then utf16Go unitOf rest 1 0 b
    else if mode = 1 then
      if unitOf b0 b < 55296 ∨ 57344 ≤ unitOf b0 b then
        (utf16Go unitOf rest 0 0 0).map (unitOf b0 b :: ·)
      else if unitOf b0 b < 56320 then utf16Go unitOf rest 2 (unitOf b0 b) 0
      else none
    else if mode = 2 then utf16Go unitOf rest 3 uh b
    else
      if 56320 ≤ unitOf b0 b ∧ unitOf b0 b < 57344 then
        (utf16Go unitOf rest 0 0 0).map
          ((65536 + (uh - 55296) * 1024 + (unitOf b0 b - 56320)) :: ·)
      else none

/-- `bytes.decode('utf-16-le', errors='strict')`: 16-bit little-endian
units; surrogate pairs combine; odd length and unpaired surrogates
raise.  The codec does not treat a leading `FF FE` specially. -/
def utf16leDecode (l : List Nat) : Option (List Nat) :=
  utf16Go (fun b0 b1 => b0 + b1 * 256) l 0 0 0

/-- `bytes.decode('utf-16-be', errors='strict')`. -/
def utf16beDecode (l : List Nat) : Option (List Nat) :=
  utf16Go (fun b0 b1 => b0 * 256 + b1) l 0 0 0

/-- One byte of `cp1252`: identity outside `80-9F`; the `80-9F` window maps
through the Windows-1252 table, with `81`, `8D`, `8F`, `90`, `9D`
undefined (strict decode raises there). -/
def cp1252Byte (b : Nat) : Option Nat :=
  if b < 128 then some b
  else if 160 ≤ b ∧ b < 256 then some b
  else if b ≥ 256 then none
  else match b with
  | 128 => some 8364
  | 130 => some 8218
  | 131 => some 402
  | 132 => some 8222
  | 133 => some 8230
  | 134 => some 8224
  | 135 => some 8225
  | 136 => some 710
  | 137 => some 8240
  | 138 => some 352
  | 139 => some 8249
  | 140 => some 338
  | 142 => some 381
  | 145 => some 8216
  | 146 => some 8217
  | 147 => some 8220
  | 148 => some 8221
  | 149 => some 8226
  | 150 => some 8211
  | 151 => some 8212
  | 152 => some 732
  | 153 => some 8482
  | 154 => some 353
  | 155 => some 8250
  | 156 => some 339
  | 158 => some 382
  | 159 => some 376
  | _ => none

/-- `bytes.decode('cp1252', errors='strict')`. -/
def cp1252Decode (raw : List Nat) : Option (List Nat) :=
  raw.mapM cp1252Byte

/-- `bytes.decode('latin-1', errors='strict')`: every byte maps to the
code point of the same value, so the codec never fails on bytes. -/
def latin1Decode (raw : List Nat) : Option (List Nat) :=
  if raw.all (· < 256) then some raw else none

/-! ## `read_text_with_fallback` -/

/-- The binary-content heuristic:
`raw and raw.count(b'\x00') > max(8, len(raw) // 10) and b'\n' not in raw`. -/
def bincond (raw : List Nat) : Bool :=
  !raw.isEmpty && decide (max 8 (raw.length / 10) < raw.count 0) && !(raw.contains 10)

def utf8Bom : List Nat := [239, 187, 191]
def utf16leBom : List Nat := [255, 254]
def utf16beBom : List Nat := [254, 255]

/-- A strict decode whose failure, in the Python source, is an uncaught
`UnicodeDecodeError` escaping `read_text_with_fallback`. -/
def strictOrError (o : Option (List Nat)) : Except Unit (List Nat) :=
  match o with
  | some t => .ok t
  | none => .error ()

/-- The no-BOM branch: `for enc in ('utf-8', 'cp1252', 'latin-1'): try ...`
followed by the last-resort `raw.decode('utf-8', errors='ignore')`. -/
def noBomDecode (raw : List Nat) : List Nat :=
  match utf8Decode raw with
  | some t => t
  | none =>
    match cp1252Decode raw with
    | some t => t
    | none =>
      match latin1Decode raw with
      | some t => t
      | none => utf8LossyDecode raw

/-- `read_text_with_fallback` of the Python source.  `utf-8-sig` consumes
the three BOM bytes; the `utf-16-le`/`utf-16-be` codecs decode the whole
byte string, BOM bytes included. -/
def read_text_with_fallback (raw : List Nat) : Except Unit (List Nat) :=
  if bincond raw then .ok []
  else if utf8Bom.isPrefixOf raw then strictOrError (utf8Decode (raw.drop 3))
  else if utf16leBom.isPrefixOf raw then strictOrError (utf16leDecode raw)
  else if utf16beBom.isPrefixOf raw then strictOrError (utf16beDecode raw)
  else .ok (noBomDecode raw)

/-- `check_file`: decode, then count declaration lines.  The `Except`
propagates the strict BOM-path decode failure exactly as the uncaught
Python exception does. -/
def check_file (raw : List Nat) : Except Unit Nat :=
  (read_text_with_fallback raw).map countDeclarations

/-! ## `main` (the walker loop over the discovered candidate files)

Directory traversal, the `SKIP_DIRS` pruning and the `.cs` filter are
the out-of-scope collaborators; `mainRun` takes the resulting candidate
files, in traversal order, as `(path, bytes)` pairs.  An exception from
`check_file` propagates: the walk stops and neither report nor
`sys.exit` is reached (`Except.error`).
-/

def walkFiles : List (String × List Nat) → Except Unit (List (String × Nat))
  | [] => .ok []
  | (p, raw) :: rest =>
    match check_file raw with
    | .error e => .error e
    | .ok c =>
      match walkFiles rest with
      | .error e => .error e
      | .ok es => .ok (if c > 1 then (p, c) :: es else es)

/-- The violation list and the `sys.exit` code (`1` if `errors` is
non-empty, else `0`). -/
def mainRun (files : List (String × List Nat)) : Except Unit (List (String × Nat) × Nat) :=
  match walkFiles files with
  | .error e => .error e
  | .ok errs => .ok (errs, if errs.isEmpty then 0 else 1)

/-! ## Declarative reading of the declaration-line pattern

`DeclLine` renders the claim's sentence: after any amount of leading
whitespace the line carries, in sequence, an optional access-modifier
keyword, an optional `partial` keyword (itself followed by whitespace),
a mandatory type-kind keyword, whitespace, and an identifier token;
the rest of the line is irrelevant.  The whitespace between an access
modifier and what follows may be empty (the pattern's `\s*`), the
whitespace after `partial` and before the identifier must be non-empty
(the pattern's `\s+`).
-/

def SpaceRun (w : List Nat) : Prop := ∀ c ∈ w, isPySpace c = true

def WordRun (i : List Nat) : Prop := ∀ c ∈ i, isPyWord c = true

def OptAccess (a : List Nat) : Prop := a = [] ∨ a ∈ accessKws

def OptPart (p : List Nat) : Prop :=
  p = [] ∨ ∃ w, SpaceRun w ∧ w ≠ [] ∧ p = modKeyword ++ w

/-- `\s+\w+` and then anything. -/
def TailSpec (l : List Nat) : Prop :=
  ∃ w2 i r, l = w2 ++ i ++ r ∧ SpaceRun w2 ∧ w2 ≠ [] ∧ WordRun i ∧ i ≠ []

/-- A type-kind keyword and then `TailSpec`. -/
def KindSpec (l : List Nat) : Prop :=
  ∃ k rest, l = k ++ rest ∧ k ∈ kindKws ∧ TailSpec rest

/-- An optional `partial`-plus-whitespace and then `KindSpec`. -/
def AfterAccessSpec (l : List Nat) : Prop :=
  ∃ p rest, l = p ++ rest ∧ OptPart p ∧ KindSpec rest

/-- The whole declaration-line shape of the claim. -/
def DeclLine (line : List Nat) : Prop :=
  ∃ w0 a w1 p k w2 i r,
    line = w0 ++ a ++ w1 ++ p ++ k ++ w2 ++ i ++ r ∧
    SpaceRun w0 ∧ OptAccess a ∧ SpaceRun w1 ∧ OptPart p ∧
    k ∈ kindKws ∧ SpaceRun w2 ∧ w2 ≠ [] ∧ WordRun i ∧ i ≠ []

/-! ## Character-class and `dropWhile` helper lemmas -/

theorem word_not_space {c : Nat} (h : isPyWord c = true) : isPySpace c = false := by
  simp only [isPyWord, decide_eq_true_eq] at h
  simp only [isPySpace, decide_eq_false_iff_not]
  omega

theorem dropWhile_cons_not_space {c : Nat} (l : List Nat) (h : isPySpace c = false) :
    (c :: l).dropWhile isPySpace = c :: l := by
  simp [List.dropWhile_cons, h]

theorem dropWhile_space_append {w l : List Nat} (h : SpaceRun w) :
    (w ++ l).dropWhile isPySpace = l.dropWhile isPySpace := by
  induction w with
  | nil => rfl
  | cons c w' ih =>
    have hc : isPySpace c = true := h c (by simp)
    simp only [List.cons_append, List.dropWhile_cons, hc, if_true]
    exact ih fun x hx => h x (by simp [hx])

theorem spaceRun_takeWhile (l : List Nat) : SpaceRun (l.takeWhile isPySpace) := by
  induction l with
  | nil => intro c hc; simp [List.takeWhile] at hc
  | cons c l' ih =>
    intro x hx
    by_cases hc : isPySpace c = true
    · rw [List.takeWhile_cons_of_pos hc] at hx
      rcases List.mem_cons.mp hx with rfl | hx
      · exact hc
      · exact ih x hx
    · rw [List.takeWhile_cons_of_neg (by simpa using hc)] at hx
      simp at hx

theorem kind_mem_cases {k : List Nat} (hk : k ∈ kindKws) :
    k = cpsOf ("class") ∨ k = cpsOf ("struct") ∨ k = cpsOf ("enum") := by
  simpa [kindKws] using hk

theorem access_mem_cases {a : List Nat} (ha : a ∈ accessKws) :
    a = cpsOf ("public") ∨ a = cpsOf ("internal") ∨ a = cpsOf ("protected") ∨
      a = cpsOf ("private") := by
  simpa [accessKws] using ha

theorem dropWhile_kind_append {k : List Nat} (hk : k ∈ kindKws) (X : List Nat) :
    (k ++ X).dropWhile isPySpace = k ++ X := by
  rcases kind_mem_cases hk with rfl | rfl | rfl
  · have h1 : cpsOf ("class") = 99 :: [108, 97, 115, 115] := by decide
    rw [h1, List.cons_append, dropWhile_cons_not_space _ (by decide)]
  · have h1 : cpsOf ("struct") = 115 :: [116, 114, 117, 99, 116] := by decide
    rw [h1, List.cons_append, dropWhile_cons_not_space _ (by decide)]
  · have h1 : cpsOf ("enum") = 101 :: [110, 117, 109] := by decide
    rw [h1, List.cons_append, dropWhile_cons_not_space _ (by decide)]

theorem dropWhile_access_append {a : List Nat} (ha : a ∈ accessKws) (X : List Nat) :
    (a ++ X).dropWhile isPySpace = a ++ X := by
  rcases access_mem_cases ha with rfl | rfl | rfl | rfl
  · have h1 : cpsOf ("public") = 112 :: [117, 98, 108, 105, 99] := by decide
    rw [h1, List.cons_append, dropWhile_cons_not_space _ (by decide)]
  · have h1 : cpsOf ("internal") = 105 :: [110, 116, 101, 114, 110, 97, 108] := by decide
    rw [h1, List.cons_append, dropWhile_cons_not_space _ (by decide)]
  · have h1 : cpsOf ("protected") = 112 :: [114, 111, 116, 101, 99, 116, 101, 100] := by decide
    rw [h1, List.cons_append, dropWhile_cons_not_space _ (by decide)]
  · have h1 : cpsOf ("private") = 112 :: [114, 105, 118, 97, 116, 101] := by decide
    rw [h1, List.cons_append, dropWhile_cons_not_space _ (by decide)]

/-- The suffix starting at `(partial\s+)?(class|...)` begins with a
non-space character, so the preceding greedy `\s*` cannot eat into it. -/
theorem dropWhile_afterAccess {p rest : List Nat} (hp : OptPart p) {k tail : List Nat}
    (hk : k ∈ kindKws) (hrest : rest = k ++ tail) :
    (p ++ rest).dropWhile isPySpace = p ++ rest := by
  rcases hp with rfl | ⟨w, _, _, rfl⟩
  · simpa [hrest] using dropWhile_kind_append hk tail
  · have h1 : modKeyword = 112 :: [97, 114, 116, 105, 97, 108] := by decide
    rw [h1, List.cons_append, List.cons_append, dropWhile_cons_not_space _ (by decide)]

/-! ## Matcher ↔ declarative pattern -/

theorem matchTail_iff (l : List Nat) : matchTail l = true ↔ TailSpec l := by
  constructor
  · intro h
    cases l with
    | nil => simp [matchTail] at h
    | cons c rest =>
      simp only [matchTail, Bool.and_eq_true] at h
      obtain ⟨hc, hw⟩ := h
      cases hd : rest.dropWhile isPySpace with
      | nil => rw [hd] at hw; simp [headWord] at hw
      | cons d t =>
        rw [hd] at hw
        simp only [headWord] at hw
        refine ⟨c :: rest.takeWhile isPySpace, [d], t, ?_, ?_, by simp, ?_, by simp⟩
        · have hsplit := List.takeWhile_append_dropWhile (p := isPySpace) (l := rest)
          rw [hd] at hsplit
          conv_lhs => rw [← hsplit]
          simp
        · intro x hx
          rcases List.mem_cons.mp hx with rfl | hx
          · exact hc
          · exact spaceRun_takeWhile rest x hx
        · intro x hx
          rcases List.mem_cons.mp hx with rfl | hx
          · exact hw
          · simp at hx
  · rintro ⟨w2, i, r, hl, hsp, hne, hword, hine⟩
    cases w2 with
    | nil => exact absurd rfl hne
    | cons c w2' =>
      cases i with
      | nil => exact absurd rfl hine
      | cons d i' =>
        subst hl
        simp only [List.cons_append, matchTail, Bool.and_eq_true]
        refine ⟨hsp c (by simp), ?_⟩
        rw [List.append_assoc, List.cons_append,
          dropWhile_space_append (fun x hx => hsp x (by simp [hx])),
          dropWhile_cons_not_space _ (word_not_space (hword d (by simp)))]
        simpa [headWord] using hword d (by simp)

theorem matchKind_iff (l : List Nat) : matchKind l = true ↔ KindSpec l := by
  constructor
  · intro h
    simp only [matchKind, List.any_eq_true, Bool.and_eq_true] at h
    obtain ⟨kw, hmem, hpre, htail⟩ := h
    obtain ⟨rest, hrest⟩ := List.isPrefixOf_iff_prefix.mp hpre
    refine ⟨kw, rest, hrest.symm, hmem, ?_⟩
    rw [← hrest, List.drop_left] at htail
    exact (matchTail_iff rest).mp htail
  · rintro ⟨k, rest, rfl, hk, htail⟩
    simp only [matchKind, List.any_eq_true, Bool.and_eq_true]
    exact ⟨k, hk, List.isPrefixOf_iff_prefix.mpr ⟨rest, rfl⟩,
      by rw [List.drop_left]; exact (matchTail_iff rest).mpr htail⟩

theorem matchAfterAccess_iff (l : List Nat) :
    matchAfterAccess l = true ↔ AfterAccessSpec l := by
  constructor
  · intro h
    rcases Bool.or_eq_true _ _ |>.mp h with h | h
    · simp only [Bool.and_eq_true] at h
      obtain ⟨hpre, hrest⟩ := h
      obtain ⟨q, hq⟩ := List.isPrefixOf_iff_prefix.mp hpre
      rw [← hq, List.drop_left] at hrest
      cases q with
      | nil => simp [matchSpacesThenKind] at hrest
      | cons c rest =>
        simp only [matchSpacesThenKind, Bool.and_eq_true] at hrest
        obtain ⟨hc, hkind⟩ := hrest
        obtain ⟨k, tail, hk1, hk2, hk3⟩ := (matchKind_iff _).mp hkind
        refine ⟨modKeyword ++ (c :: rest.takeWhile isPySpace),
          rest.dropWhile isPySpace, ?_, ?_, k, tail, hk1, hk2, hk3⟩
        · rw [← hq, List.append_assoc, List.cons_append]
          have hsplit := List.takeWhile_append_dropWhile (p := isPySpace) (l := rest)
          rw [hsplit]
        · refine Or.inr ⟨c :: rest.takeWhile isPySpace, ?_, by simp, rfl⟩
          intro x hx
          rcases List.mem_cons.mp hx with rfl | hx
          · exact hc
          · exact spaceRun_takeWhile rest x hx
    · obtain ⟨k, rest, rfl, hk, htail⟩ := (matchKind_iff _).mp h
      exact ⟨[], k ++ rest, rfl, Or.inl rfl, k, rest, rfl, hk, htail⟩
  · rintro ⟨p, rest, rfl, hp, k, tail, rfl, hk, htail⟩
    rcases hp with rfl | ⟨w, hw, hwne, rfl⟩
    · refine Bool.or_eq_true _ _ |>.mpr (Or.inr ?_)
      simp only [List.nil_append]
      exact (matchKind_iff _).mpr ⟨k, tail, rfl, hk, htail⟩
    · refine Bool.or_eq_true _ _ |>.mpr (Or.inl ?_)
      cases w with
      | nil => exact absurd rfl hwne
      | cons c w' =>
        simp only [Bool.and_eq_true]
        constructor
        · exact List.isPrefixOf_iff_prefix.mpr
            ⟨(c :: w') ++ (k ++ tail), by simp [List.append_assoc]⟩
        · rw [List.append_assoc, List.drop_left]
          simp only [List.cons_append, matchSpacesThenKind, Bool.and_eq_true]
          refine ⟨hw c (by simp), ?_⟩
          rw [dropWhile_space_append (fun x hx => hw x (by simp [hx])),
            dropWhile_kind_append hk tail]
          exact (matchKind_iff _).mpr ⟨k, tail, rfl, hk, htail⟩

theorem declarationReMatch_iff (line : List Nat) :
    declarationReMatch line = true ↔ DeclLine line := by
  constructor
  · intro h
    rcases Bool.or_eq_true _ _ |>.mp h with h | h
    · simp only [List.any_eq_true, Bool.and_eq_true] at h
      obtain ⟨kw, hmem, hpre, hafter⟩ := h
      obtain ⟨q, hq⟩ := List.isPrefixOf_iff_prefix.mp hpre
      rw [← hq, List.drop_left] at hafter
      obtain ⟨p, rest, hdec, hp, k, tail, hk1, hk2, hk3⟩ :=
        (matchAfterAccess_iff _).mp hafter
      obtain ⟨w2, i, r, ht1, ht2, ht3, ht4, ht5⟩ := hk3
      refine ⟨line.takeWhile isPySpace, kw, q.takeWhile isPySpace, p, k, w2, i, r,
        ?_, spaceRun_takeWhile line, Or.inr hmem, spaceRun_takeWhile q,
        hp, hk2, ht2, ht3, ht4, ht5⟩
      have hqsplit : q.takeWhile isPySpace ++ (p ++ rest) = q := by
        rw [← hdec, List.takeWhile_append_dropWhile]
      have hline : line.takeWhile isPySpace ++ (kw ++ q) = line := by
        rw [hq, List.takeWhile_append_dropWhile]
      conv_lhs => rw [← hline, ← hqsplit]
      rw [hk1, ht1]
      simp [List.append_assoc]
    · obtain ⟨p, rest, hdec, hp, k, tail, hk1, hk2, hk3⟩ :=
        (matchAfterAccess_iff _).mp h
      obtain ⟨w2, i, r, ht1, ht2, ht3, ht4, ht5⟩ := hk3
      refine ⟨line.takeWhile isPySpace, [], [], p, k, w2, i, r, ?_,
        spaceRun_takeWhile line, Or.inl rfl, by intro x hx; simp at hx,
        hp, hk2, ht2, ht3, ht4, ht5⟩
      have hline : line.takeWhile isPySpace ++ (p ++ rest) = line := by
        rw [← hdec, List.takeWhile_append_dropWhile]
      conv_lhs => rw [← hline]
      rw [hk1, ht1]
      simp [List.append_assoc]
  · rintro ⟨w0, a, w1, p, k, w2, i, r, rfl, hw0, ha, hw1, hp, hk, hsp2, hne2, hwi, hine⟩
    have htail : TailSpec (w2 ++ (i ++ r)) :=
      ⟨w2, i, r, (List.append_assoc w2 i r).symm, hsp2, hne2, hwi, hine⟩
    have hP : AfterAccessSpec (p ++ (k ++ (w2 ++ (i ++ r)))) :=
      ⟨p, k ++ (w2 ++ (i ++ r)), rfl, hp, k, w2 ++ (i ++ r), rfl, hk, htail⟩
    have hPdrop : (p ++ (k ++ (w2 ++ (i ++ r)))).dropWhile isPySpace
        = p ++ (k ++ (w2 ++ (i ++ r))) := dropWhile_afterAccess hp hk rfl
    rcases ha with rfl | ha
    · -- no access modifier: the top-level `\s*` absorbs `w0` and `w1`
      refine Bool.or_eq_true _ _ |>.mpr (Or.inr ?_)
      have hdrop : (w0 ++ [] ++ w1 ++ p ++ k ++ w2 ++ i ++ r).dropWhile isPySpace
          = p ++ (k ++ (w2 ++ (i ++ r))) := by
        simp only [List.append_nil, List.append_assoc]
        rw [dropWhile_space_append hw0, dropWhile_space_append hw1, hPdrop]
      rw [hdrop]
      exact (matchAfterAccess_iff _).mpr hP
    · refine Bool.or_eq_true _ _ |>.mpr (Or.inl ?_)
      simp only [List.any_eq_true, Bool.and_eq_true]
      have hdrop : (w0 ++ a ++ w1 ++ p ++ k ++ w2 ++ i ++ r).dropWhile isPySpace
          = a ++ (w1 ++ (p ++ (k ++ (w2 ++ (i ++ r))))) := by
        simp only [List.append_assoc]
        rw [dropWhile_space_append hw0]
        exact dropWhile_access_append ha (w1 ++ (p ++ (k ++ (w2 ++ (i ++ r)))))
      refine ⟨a, ha, ?_, ?_⟩
      · rw [hdrop]
        exact List.isPrefixOf_iff_prefix.mpr ⟨_, rfl⟩
      · rw [hdrop, List.drop_left, dropWhile_space_append hw1, hPdrop]
        exact (matchAfterAccess_iff _).mpr hP

/-! ## `splitlines` lemmas -/

theorem splitGo_notbreak (c : Nat) (l acc : List Nat)
    (hc : isLineBreakCp c = false) (flag : Bool) :
    splitGo flag (c :: l) acc = splitGo false l (c :: acc) := by
  have hc10 : ¬(c = 10) := by
    intro hEq
    rw [hEq] at hc
    exact absurd hc (by decide)
  have hc13 : ¬(c = 13) := by
    intro hEq
    rw [hEq] at hc
    exact absurd hc (by decide)
  simp [splitGo, hc10, hc13, hc]

theorem splitGo_lf (l : List Nat) (h : ∀ c ∈ l, isLineBreakCp c = false)
    (rest acc : List Nat) :
    splitGo false (l ++ 10 :: rest) acc = (acc.reverse ++ l) :: splitGo false rest [] := by
  induction l generalizing acc with
  | nil => simp [splitGo, isLineBreakCp]
  | cons c l' ih =>
    rw [List.cons_append, splitGo_notbreak c _ _ (h c (by simp)),
      ih (fun x hx => h x (by simp [hx])) (c :: acc)]
    simp

theorem splitGo_crlf (l : List Nat) (h : ∀ c ∈ l, isLineBreakCp c = false)
    (rest acc : List Nat) :
    splitGo false (l ++ 13 :: 10 :: rest) acc = (acc.reverse ++ l) :: splitGo false rest [] := by
  induction l generalizing acc with
  | nil => simp [splitGo]
  | cons c l' ih =>
    rw [List.cons_append, splitGo_notbreak c _ _ (h c (by simp)),
      ih (fun x hx => h x (by simp [hx])) (c :: acc)]
    simp

theorem splitGo_cr_end (l : List Nat) (h : ∀ c ∈ l, isLineBreakCp c = false)
    (acc : List Nat) :
    splitGo false (l ++ [13]) acc = [acc.reverse ++ l] := by
  induction l generalizing acc with
  | nil => simp [splitGo]
  | cons c l' ih =>
    rw [List.cons_append, splitGo_notbreak c _ _ (h c (by simp)),
      ih (fun x hx => h x (by simp [hx])) (c :: acc)]
    simp

/-! ## Binary-heuristic path -/

theorem bincond_true_of {raw : List Nat} (hne : raw ≠ [])
    (hcnt : max 8 (raw.length / 10) < raw.count 0) (hlf : ¬(10 ∈ raw)) :
    bincond raw = true := by
  simp only [bincond, Bool.and_eq_true, Bool.not_eq_true']
  refine ⟨⟨?_, by simpa using hcnt⟩, ?_⟩
  · simpa [List.isEmpty_iff] using hne
  · simpa using hlf

/-- Shared fact: a byte string the heuristic classifies as binary decodes
to empty text and counts zero declarations. -/
theorem binary_path (raw : List Nat) (hne : raw ≠ [])
    (hcnt : max 8 (raw.length / 10) < raw.count 0) (hlf : ¬(10 ∈ raw)) :
    read_text_with_fallback raw = .ok [] ∧ check_file raw = .ok 0 := by
  have hb := bincond_true_of hne hcnt hlf
  have h1 : read_text_with_fallback raw = .ok [] := by
    simp [read_text_with_fallback, hb]
  exact ⟨h1, by simp [check_file, h1, Except.map, countDeclarations]⟩

/-! ## BOM lemmas -/

/-! ## UTF-8 encoding and the decode-of-encode round trip -/

/-- Standard UTF-8 encoding of one Unicode scalar value. -/
def utf8EncodeCp (n : Nat) : List Nat :=
  if n < 128 then [n]
  else if n < 2048 then [192 + n / 64, 128 + n % 64]
  else if n < 65536 then [224 + n / 4096, 128 + n / 64 % 64, 128 + n % 64]
  else [240 + n / 262144, 128 + n / 4096 % 64, 128 + n / 64 % 64, 128 + n % 64]

/-- `str.encode('utf-8')` of a text (sequence of scalar values). -/
def utf8Encode (t : List Nat) : List Nat := t.flatMap utf8EncodeCp

/-- A Unicode scalar value (encodable code point: not a surrogate, in range). -/
def IsScalar (n : Nat) : Prop := n < 55296 ∨ (57344 ≤ n ∧ n < 1114112)

instance (n : Nat) : Decidable (IsScalar n) :=
  inferInstanceAs (Decidable (_ ∨ _))

/-- Manual unfolding of one automaton step (definitional). -/
theorem utf8Go_cons (b : Nat) (rest : List Nat) (rem acc lo hi : Nat) :
    utf8Go (b :: rest) rem acc lo hi =
      if rem = 0 then
        if b < 128 then (utf8Go rest 0 0 0 0).map (b :: ·)
        else if b < 194 then none
        else if b < 224 then utf8Go rest 1 (b - 192) 128 192
        else if b = 224 then utf8Go rest 2 0 160 192
        else if b = 237 then utf8Go rest 2 13 128 160
        else if b < 240 then utf8Go rest 2 (b - 224) 128 192
        else if b = 240 then utf8Go rest 3 0 144 192
        else if b = 244 then utf8Go rest 3 4 128 144
        else if b < 245 then utf8Go rest 3 (b - 240) 128 192
        else none
      else
        if lo ≤ b ∧ b < hi then
          if rem = 1 then (utf8Go rest 0 0 0 0).map ((acc * 64 + (b - 128)) :: ·)
          else utf8Go rest (rem - 1) (acc * 64 + (b - 128)) 128 192
        else none := rfl

/-- Decoding an encoded scalar consumes exactly its bytes and restores it. -/
theorem utf8Go_encode (n : Nat) (hn : IsScalar n) (rest : List Nat) :
    utf8Go (utf8EncodeCp n ++ rest) 0 0 0 0 = (utf8Go rest 0 0 0 0).map (n :: ·) := by
  by_cases h1 : n < 128
  · have e : utf8EncodeCp n = [n] := by rw [utf8EncodeCp, if_pos h1]
    rw [e]
    simp only [List.cons_append, List.nil_append]
    rw [utf8Go_cons, if_pos rfl, if_pos h1]
  · by_cases h2 : n < 2048
    · have e : utf8EncodeCp n = [192 + n / 64, 128 + n % 64] := by
        rw [utf8EncodeCp, if_neg h1, if_pos h2]
      rw [e]
      simp only [List.cons_append, List.nil_append]
      have c1 : ¬(192 + n / 64 < 128) := by omega
      have c2 : ¬(192 + n / 64 < 194) := by omega
      have c3 : 192 + n / 64 < 224 := by omega
      rw [utf8Go_cons, if_pos rfl, if_neg c1, if_neg c2, if_pos c3]
      have c4 : ¬((1 : Nat) = 0) := by omega
      have c5 : 128 ≤ 128 + n % 64 ∧ 128 + n % 64 < 192 := by omega
      rw [utf8Go_cons, if_neg c4, if_pos c5, if_pos rfl]
      have c6 : (192 + n / 64 - 192) * 64 + (128 + n % 64 - 128) = n := by omega
      rw [c6]
    · by_cases h3 : n < 65536
      · have e : utf8EncodeCp n = [224 + n / 4096, 128 + n / 64 % 64, 128 + n % 64] := by
          rw [utf8EncodeCp, if_neg h1, if_neg h2, if_pos h3]
        rw [e]
        simp only [List.cons_append, List.nil_append]
        have c1 : ¬(224 + n / 4096 < 128) := by omega
        have c2 : ¬(224 + n / 4096 < 194) := by omega
        have c3 : ¬(224 + n / 4096 < 224) := by omega
        rw [utf8Go_cons, if_pos rfl, if_neg c1, if_neg c2, if_neg c3]
        have c4 : ¬((2 : Nat) = 0) := by omega
        have c5 : ¬((2 : Nat) = 1) := by omega
        have c6 : ¬((1 : Nat) = 0) := by omega
        have c7 : 128 ≤ 128 + n % 64 ∧ 128 + n % 64 < 192 := by omega
        by_cases h224 : 224 + n / 4096 = 224
        · rw [if_pos h224]
          have w1 : 160 ≤ 128 + n / 64 % 64 ∧ 128 + n / 64 % 64 < 192 := by omega
          rw [utf8Go_cons, if_neg c4, if_pos w1, if_neg c5]
          rw [utf8Go_cons, if_neg c6, if_pos c7, if_pos rfl]
          have v : ((0 : Nat) * 64 + (128 + n / 64 % 64 - 128)) * 64 + (128 + n % 64 - 128)
              = n := by omega
          rw [v]
        · rw [if_neg h224]
          by_cases h237 : 224 + n / 4096 = 237
          · have hs : n < 55296 := by
              rcases hn with h | h
              · exact h
              · omega
            rw [if_pos h237]
            have w1 : 128 ≤ 128 + n / 64 % 64 ∧ 128 + n / 64 % 64 < 160 := by omega
            rw [utf8Go_cons, if_neg c4, if_pos w1, if_neg c5]
            rw [utf8Go_cons, if_neg c6, if_pos c7, if_pos rfl]
            have v : ((13 : Nat) * 64 + (128 + n / 64 % 64 - 128)) * 64 + (128 + n % 64 - 128)
                = n := by omega
            rw [v]
          · rw [if_neg h237]
            have c8 : 224 + n / 4096 < 240 := by omega
            rw [if_pos c8]
            have w1 : 128 ≤ 128 + n / 64 % 64 ∧ 128 + n / 64 % 64 < 192 := by omega
            rw [utf8Go_cons, if_neg c4, if_pos w1, if_neg c5]
            rw [utf8Go_cons, if_neg c6, if_pos c7, if_pos rfl]
            have v : ((224 + n / 4096 - 224) * 64 + (128 + n / 64 % 64 - 128)) * 64
                + (128 + n % 64 - 128) = n := by omega
            rw [v]
      · have h4 : n < 1114112 := by
          rcases hn with h | h
          · omega
          · exact h.2
        have e : utf8EncodeCp n
            = [240 + n / 262144, 128 + n / 4096 % 64, 128 + n / 64 % 64, 128 + n % 64] := by
          rw [utf8EncodeCp, if_neg h1, if_neg h2, if_neg h3]
        rw [e]
        simp only [List.cons_append, List.nil_append]
        have c1 : ¬(240 + n / 262144 < 128) := by omega
        have c2 : ¬(240 + n / 262144 < 194) := by omega
        have c3 : ¬(240 + n / 262144 < 224) := by omega
        have c4 : ¬(240 + n / 262144 = 224) := by omega
        have c5 : ¬(240 + n / 262144 = 237) := by omega
        have c6 : ¬(240 + n / 262144 < 240) := by omega
        rw [utf8Go_cons, if_pos rfl, if_neg c1, if_neg c2, if_neg c3, if_neg c4,
          if_neg c5, if_neg c6]
        have d1 : ¬((3 : Nat) = 0) := by omega
        have d2 : ¬((3 : Nat) = 1) := by omega
        have d3 : ¬((3 : Nat) - 1 = 0) := by omega
        have d4 : ¬((3 : Nat) - 1 = 1) := by omega
        have d5 : ¬((3 : Nat) - 1 - 1 = 0) := by omega
        have d6 : (3 : Nat) - 1 - 1 = 1 := by omega
        have w2 : 128 ≤ 128 + n / 64 % 64 ∧ 128 + n / 64 % 64 < 192 := by omega
        have w3 : 128 ≤ 128 + n % 64 ∧ 128 + n % 64 < 192 := by omega
        by_cases h240 : 240 + n / 262144 = 240
        · rw [if_pos h240]
          have w1 : 144 ≤ 128 + n / 4096 % 64 ∧ 128 + n / 4096 % 64 < 192 := by omega
          rw [utf8Go_cons, if_neg d1, if_pos w1, if_neg d2]
          rw [utf8Go_cons, if_neg d3, if_pos w2, if_neg d4]
          rw [utf8Go_cons, if_neg d5, if_pos w3, if_pos d6]
          have v : (((0 : Nat) * 64 + (128 + n / 4096 % 64 - 128)) * 64
              + (128 + n / 64 % 64 - 128)) * 64 + (128 + n % 64 - 128) = n := by omega
          rw [v]
        · rw [if_neg h240]
          by_cases h244 : 240 + n / 262144 = 244
          · rw [if_pos h244]
            have w1 : 128 ≤ 128 + n / 4096 % 64 ∧ 128 + n / 4096 % 64 < 144 := by omega
            rw [utf8Go_cons, if_neg d1, if_pos w1, if_neg d2]
            rw [utf8Go_cons, if_neg d3, if_pos w2, if_neg d4]
            rw [utf8Go_cons, if_neg d5, if_pos w3, if_pos d6]
            have v : (((4 : Nat) * 64 + (128 + n / 4096 % 64 - 128)) * 64
                + (128 + n / 64 % 64 - 128)) * 64 + (128 + n % 64 - 128) = n := by omega
            rw [v]
          · rw [if_neg h244]
            have c7 : 240 + n / 262144 < 245 := by omega
            rw [if_pos c7]
            have w1 : 128 ≤ 128 + n / 4096 % 64 ∧ 128 + n / 4096 % 64 < 192 := by omega
            rw [utf8Go_cons, if_neg d1, if_pos w1, if_neg d2]
            rw [utf8Go_cons, if_neg d3, if_pos w2, if_neg d4]
            rw [utf8Go_cons, if_neg d5, if_pos w3, if_pos d6]
            have v : (((240 + n / 262144 - 240) * 64 + (128 + n / 4096 % 64 - 128)) * 64
                + (128 + n / 64 % 64 - 128)) * 64 + (128 + n % 64 - 128) = n := by omega
            rw [v]

/-- Round trip of whole texts, with an arbitrary byte continuation. -/
theorem utf8Go_encode_list (t : List Nat) (h : ∀ c ∈ t, IsScalar c) (rest : List Nat) :
    utf8Go (utf8Encode t ++ rest) 0 0 0 0 = (utf8Go rest 0 0 0 0).map (t ++ ·) := by
  induction t with
  | nil =>
    simp only [utf8Encode, List.flatMap_nil, List.nil_append]
    cases utf8Go rest 0 0 0 0 <;> simp
  | cons c t' ih =>
    have e : utf8Encode (c :: t') = utf8EncodeCp c ++ utf8Encode t' := by
      simp [utf8Encode, List.flatMap_cons]
    rw [e, List.append_assoc, utf8Go_encode c (h c (by simp)) _,
      ih (fun x hx => h x (by simp [hx]))]
    cases utf8Go rest 0 0 0 0 <;> simp

/-- `decode(encode(t)) = t` for every scalar-valued text. -/
theorem utf8Decode_encode (t : List Nat) (h : ∀ c ∈ t, IsScalar c) :
    utf8Decode (utf8Encode t) = some t := by
  have := utf8Go_encode_list t h []
  rw [List.append_nil] at this
  simpa [utf8Decode, utf8Go] using this

theorem utf16leDecode_bom (rest : List Nat) :
    utf16leDecode (255 :: 254 :: rest) = (utf16leDecode rest).map (65279 :: ·) := by
  simp [utf16leDecode, utf16Go]

theorem utf16beDecode_bom (rest : List Nat) :
    utf16beDecode (254 :: 255 :: rest) = (utf16beDecode rest).map (65279 :: ·) := by
  simp [utf16beDecode, utf16Go]

/-! ## `read_text_with_fallback` branch lemmas -/

theorem read_text_utf8bom (rest : List Nat) (hb : bincond (utf8Bom ++ rest) = false) :
    read_text_with_fallback (utf8Bom ++ rest) = strictOrError (utf8Decode rest) := by
  unfold read_text_with_fallback
  rw [if_neg (by simp [hb]),
    if_pos (List.isPrefixOf_iff_prefix.mpr ⟨rest, rfl⟩)]
  have hdrop : (utf8Bom ++ rest).drop 3 = rest := rfl
  rw [hdrop]

theorem bomLE_not_utf8 (rest : List Nat) :
    utf8Bom.isPrefixOf (utf16leBom ++ rest) = false := by
  simp [utf8Bom, utf16leBom, List.isPrefixOf]

theorem bomBE_not_utf8 (rest : List Nat) :
    utf8Bom.isPrefixOf (utf16beBom ++ rest) = false := by
  simp [utf8Bom, utf16beBom, List.isPrefixOf]

theorem bomBE_not_le (rest : List Nat) :
    utf16leBom.isPrefixOf (utf16beBom ++ rest) = false := by
  simp [utf16leBom, utf16beBom, List.isPrefixOf]

theorem read_text_utf16le (rest : List Nat) (hb : bincond (utf16leBom ++ rest) = false) :
    read_text_with_fallback (utf16leBom ++ rest)
      = strictOrError ((utf16leDecode rest).map (65279 :: ·)) := by
  unfold read_text_with_fallback
  rw [if_neg (by simp [hb]), if_neg (by simp [bomLE_not_utf8]),
    if_pos (List.isPrefixOf_iff_prefix.mpr ⟨rest, rfl⟩)]
  have h : utf16leDecode (utf16leBom ++ rest) = (utf16leDecode rest).map (65279 :: ·) :=
    utf16leDecode_bom rest
  rw [h]

theorem read_text_utf16be (rest : List Nat) (hb : bincond (utf16beBom ++ rest) = false) :
    read_text_with_fallback (utf16beBom ++ rest)
      = strictOrError ((utf16beDecode rest).map (65279 :: ·)) := by
  unfold read_text_with_fallback
  rw [if_neg (by simp [hb]), if_neg (by simp [bomBE_not_utf8]),
    if_neg (by simp [bomBE_not_le]),
    if_pos (List.isPrefixOf_iff_prefix.mpr ⟨rest, rfl⟩)]
  have h : utf16beDecode (utf16beBom ++ rest) = (utf16beDecode rest).map (65279 :: ·) :=
    utf16beDecode_bom rest
  rw [h]

theorem read_text_noBom (raw : List Nat) (hb : bincond raw = false)
    (h8 : utf8Bom.isPrefixOf raw = false)
    (hle : utf16leBom.isPrefixOf raw = false)
    (hbe : utf16beBom.isPrefixOf raw = false) :
    read_text_with_fallback raw = .ok (noBomDecode raw) := by
  unfold read_text_with_fallback
  rw [if_neg (by simp [hb]), if_neg (by simp [h8]), if_neg (by simp [hle]),
    if_neg (by simp [hbe])]

/-! ## Walker lemmas -/

/-- The per-file outcome `main` turns into a violation record. -/
def violationOf (pr : String × List Nat) : Option (String × Nat) :=
  match check_file pr.2 with
  | .ok c => if c > 1 then some (pr.1, c) else none
  | .error _ => none

theorem walkFiles_ok (files : List (String × List Nat)) (es : List (String × Nat))
    (h : walkFiles files = .ok es) : es = files.filterMap violationOf := by
  induction files generalizing es with
  | nil =>
    simp only [walkFiles] at h
    cases h
    rfl
  | cons pr rest ih =>
    obtain ⟨p, raw⟩ := pr
    simp only [walkFiles] at h
    cases hc : check_file raw with
    | error e => rw [hc] at h; cases h
    | ok c =>
      rw [hc] at h
      cases hw : walkFiles rest with
      | error e => rw [hw] at h; cases h
      | ok es' =>
        rw [hw] at h
        cases h
        rw [List.filterMap_cons]
        simp only [violationOf, hc]
        by_cases hcgt : c > 1
        · rw [if_pos hcgt, if_pos hcgt, ih es' hw]
        · rw [if_neg hcgt, if_neg hcgt, ih es' hw]

theorem mainRun_ok (files : List (String × List Nat)) (errs : List (String × Nat))
    (code : Nat) (h : mainRun files = .ok (errs, code)) :
    errs = files.filterMap violationOf ∧ code = if errs.isEmpty then 0 else 1 := by
  unfold mainRun at h
  cases hw : walkFiles files with
  | error e => rw [hw] at h; cases h
  | ok es =>
    rw [hw] at h
    obtain ⟨he, hc⟩ : es = errs ∧ (if es.isEmpty then 0 else 1) = code := by
      simpa using h
    constructor
    · rw [← he]
      exact walkFiles_ok files es hw
    · rw [← hc, he]

/-! ## Claims -/

/-- C1 (code bug): the spec requires a strict BOM-path decode failure to be
surfaced as a per-file error with the scan completing and a report emitted;
`main` calls `check_file` with no exception handling, so the
`UnicodeDecodeError` raised by `raw.decode('utf-16-le')` on the file
`FF FE 41` (UTF-16-LE BOM, odd-length remainder) propagates and aborts the
whole run: the remaining files are not scanned and no report or exit code of
the tool is produced (modelled by `Except.error`). -/
theorem c1_bom_decode_failure_aborts_run :
    read_text_with_fallback [255, 254, 65] = .error ()
    ∧ mainRun [("A.cs", cpsOf ("class A {}\n")), ("B.cs", [255, 254, 65]),
        ("C.cs", cpsOf ("class C {}\n"))] = .error () :=
  ⟨rfl, rfl⟩

/-- C2 (counterexample): for the bytes `FF FE 41 00` (UTF-16-LE BOM then
`A`), the decoded text is `U+FEFF` followed by `A` — the byte-order mark is
*not* consumed and the first character of the text is not the first
character after the marker, contradicting the claim. -/
theorem c2_utf16_bom_not_stripped :
    read_text_with_fallback [255, 254, 65, 0] = .ok [65279, 65]
    ∧ (65279 : Nat) ≠ 65 :=
  ⟨rfl, by decide⟩

/-- C2 (amended): BOM detection checks, in order, the UTF-8 BOM, `FF FE`,
`FE FF` (after the binary heuristic).  The UTF-8 BOM is consumed: the
result is exactly the strict UTF-8 decoding of the bytes after the marker.
The UTF-16 BOMs are detected but not stripped: the whole byte string is
decoded strict UTF-16, so the text is `U+FEFF` followed by the decoding of
the bytes after the marker (and a decode failure is the error case). -/
theorem c2_amended_bom_handling (r8 rle rbe : List Nat)
    (h8 : bincond (utf8Bom ++ r8) = false)
    (hle : bincond (utf16leBom ++ rle) = false)
    (hbe : bincond (utf16beBom ++ rbe) = false) :
    read_text_with_fallback (utf8Bom ++ r8) = strictOrError (utf8Decode r8)
    ∧ read_text_with_fallback (utf16leBom ++ rle)
        = strictOrError ((utf16leDecode rle).map (65279 :: ·))
    ∧ read_text_with_fallback (utf16beBom ++ rbe)
        = strictOrError ((utf16beDecode rbe).map (65279 :: ·)) :=
  ⟨read_text_utf8bom r8 h8, read_text_utf16le rle hle, read_text_utf16be rbe hbe⟩

theorem c2_amended_bom_handling_witness :
    (bincond (utf8Bom ++ [65]) = false
      ∧ bincond (utf16leBom ++ [65, 0]) = false
      ∧ bincond (utf16beBom ++ [0, 65]) = false)
    ∧ (read_text_with_fallback (utf8Bom ++ [65]) = strictOrError (utf8Decode [65])
      ∧ read_text_with_fallback (utf16leBom ++ [65, 0])
          = strictOrError ((utf16leDecode [65, 0]).map (65279 :: ·))
      ∧ read_text_with_fallback (utf16beBom ++ [0, 65])
          = strictOrError ((utf16beDecode [0, 65]).map (65279 :: ·))) :=
  ⟨⟨by decide, by decide, by decide⟩,
    c2_amended_bom_handling [65] [65, 0] [0, 65] (by decide) (by decide) (by decide)⟩

/-- C3 (counterexample): `class Ab` followed by eight NUL bytes has exactly
`max(8, len/10) = 8` NUL bytes (the claim's "at least" threshold) and no
line feed, yet the heuristic (which requires *strictly more*) does not
fire: the bytes decode as UTF-8 to non-empty text and the file counts one
declaration, not zero. -/
theorem c3_threshold_at_least_fails :
    (cpsOf ("class Ab") ++ List.replicate 8 0 ≠ []
      ∧ max 8 ((cpsOf ("class Ab") ++ List.replicate 8 0).length / 10)
          ≤ (cpsOf ("class Ab") ++ List.replicate 8 0).count 0
      ∧ ¬(10 ∈ cpsOf ("class Ab") ++ List.replicate 8 0))
    ∧ read_text_with_fallback (cpsOf ("class Ab") ++ List.replicate 8 0)
        = .ok (cpsOf ("class Ab") ++ List.replicate 8 0)
    ∧ check_file (cpsOf ("class Ab") ++ List.replicate 8 0) = .ok 1 :=
  ⟨by decide, rfl, rfl⟩

/-- C3 (amended): with the threshold corrected from "at least" to
"strictly exceeds" (the code's `>`), the claim holds: such non-empty,
newline-free, NUL-heavy bytes decode to empty text and count zero
declarations. -/
theorem c3_amended_strict_threshold (raw : List Nat) (hne : raw ≠ [])
    (hcnt : max 8 (raw.length / 10) < raw.count 0) (hlf : ¬(10 ∈ raw)) :
    read_text_with_fallback raw = .ok [] ∧ check_file raw = .ok 0 :=
  binary_path raw hne hcnt hlf

theorem c3_amended_strict_threshold_witness :
    (List.replicate 20 0 ≠ ([] : List Nat)
      ∧ max 8 ((List.replicate 20 (0 : Nat)).length / 10)
          < (List.replicate 20 (0 : Nat)).count 0
      ∧ ¬(10 ∈ List.replicate 20 (0 : Nat)))
    ∧ (read_text_with_fallback (List.replicate 20 0) = .ok []
      ∧ check_file (List.replicate 20 0) = .ok 0) :=
  ⟨⟨by decide, by decide, by decide⟩,
    c3_amended_strict_threshold (List.replicate 20 0) (by decide) (by decide) (by decide)⟩

/-- C4: a non-empty byte string whose NUL count strictly exceeds
`max(8, len/10)` and which contains no line-feed byte is classified
non-text: decode returns empty text and the declaration count is `0`. -/
theorem c4_binary_nontext (raw : List Nat) (hne : raw ≠ [])
    (hcnt : max 8 (raw.length / 10) < raw.count 0) (hlf : ¬(10 ∈ raw)) :
    read_text_with_fallback raw = .ok [] ∧ check_file raw = .ok 0 :=
  binary_path raw hne hcnt hlf

/-- C4 witness: the claim's concrete scenario, nine NUL bytes. -/
theorem c4_binary_nontext_witness :
    (List.replicate 9 0 ≠ ([] : List Nat)
      ∧ max 8 ((List.replicate 9 (0 : Nat)).length / 10)
          < (List.replicate 9 (0 : Nat)).count 0
      ∧ ¬(10 ∈ List.replicate 9 (0 : Nat)))
    ∧ (read_text_with_fallback (List.replicate 9 0) = .ok []
      ∧ check_file (List.replicate 9 0) = .ok 0) :=
  ⟨⟨by decide, by decide, by decide⟩,
    c4_binary_nontext (List.replicate 9 0) (by decide) (by decide) (by decide)⟩

/-- C5: a line is counted as a declaration iff, after any amount of leading
whitespace, it carries in sequence an optional access-modifier keyword
(`public`/`internal`/`protected`/`private`), an optional `partial` keyword
(followed by whitespace), a mandatory type-kind keyword
(`class`/`struct`/`enum`), whitespace, and an identifier token; anything
after the identifier is irrelevant (`DeclLine`).  The total count is the
number of matching lines of `splitlines`. -/
theorem c5_declaration_line_pattern :
    (∀ line : List Nat, declarationReMatch line = true ↔ DeclLine line)
    ∧ (∀ t : List Nat,
        countDeclarations t = (pySplitlines t).countP declarationReMatch) := by
  refine ⟨declarationReMatch_iff, ?_⟩
  intro t
  by_cases h : t = []
  · subst h
    rfl
  · rw [countDeclarations, if_neg h]

/-- C6: on byte strings with no recognized BOM (and not classified binary),
the reader returns the first success of the strict chain UTF-8, cp1252,
latin-1.  Because latin-1 maps every byte, the chain always succeeds, so
the final lossy `errors='ignore'` fallback is unreachable and this path
never raises. -/
theorem c6_no_bom_strict_chain (raw : List Nat)
    (hbytes : raw.all (· < 256) = true)
    (hb : bincond raw = false)
    (h8 : utf8Bom.isPrefixOf raw = false)
    (hle : utf16leBom.isPrefixOf raw = false)
    (hbe : utf16beBom.isPrefixOf raw = false) :
    ∃ t, (utf8Decode raw <|> cp1252Decode raw <|> latin1Decode raw) = some t
      ∧ read_text_with_fallback raw = .ok t := by
  have hrt := read_text_noBom raw hb h8 hle hbe
  unfold noBomDecode at hrt
  cases hu : utf8Decode raw with
  | some t =>
    rw [hu] at hrt
    exact ⟨t, rfl, hrt⟩
  | none =>
    rw [hu] at hrt
    cases hc : cp1252Decode raw with
    | some t =>
      rw [hc] at hrt
      exact ⟨t, rfl, hrt⟩
    | none =>
      have hl : latin1Decode raw = some raw := by
        unfold latin1Decode
        rw [if_pos hbytes]
      rw [hc, hl] at hrt
      exact ⟨raw, hl, hrt⟩

theorem c6_no_bom_strict_chain_witness :
    (([104, 105] : List Nat).all (· < 256) = true
      ∧ bincond [104, 105] = false
      ∧ utf8Bom.isPrefixOf [104, 105] = false
      ∧ utf16leBom.isPrefixOf [104, 105] = false
      ∧ utf16beBom.isPrefixOf [104, 105] = false)
    ∧ ∃ t, (utf8Decode [104, 105] <|> cp1252Decode [104, 105]
          <|> latin1Decode [104, 105]) = some t
        ∧ read_text_with_fallback [104, 105] = .ok t :=
  ⟨⟨by decide, by decide, by decide, by decide, by decide⟩,
    c6_no_bom_strict_chain [104, 105] (by decide) (by decide) (by decide)
      (by decide) (by decide)⟩

/-- C7 (counterexample): the round trip fails for the text of nine NUL
characters: its BOM-prefixed UTF-8 encoding is classified binary by the
heuristic (9 NULs > max(8, 12/10), no line feed), so decode returns empty
text instead of the original sample. -/
theorem c7_roundtrip_fails_on_binary_heuristic :
    read_text_with_fallback (utf8Bom ++ utf8Encode (List.replicate 9 0)) = .ok []
    ∧ (List.replicate 9 0 : List Nat) ≠ [] :=
  ⟨rfl, by decide⟩

/-- C7 (amended): for every scalar-valued text sample whose BOM-prefixed
UTF-8 encoding is not classified binary by the heuristic, decoding the
UTF-8 BOM plus the UTF-8 encoding reproduces the sample exactly (BOM
stripped, content intact). -/
theorem c7_amended_roundtrip (t : List Nat) (hs : ∀ c ∈ t, IsScalar c)
    (hb : bincond (utf8Bom ++ utf8Encode t) = false) :
    read_text_with_fallback (utf8Bom ++ utf8Encode t) = .ok t := by
  rw [read_text_utf8bom _ hb, utf8Decode_encode t hs]
  rfl

/-- C7 witness: the claim's concrete scenario — a UTF-8 BOM followed by
`class A {}\nenum B {}\n` round-trips, counts 2 declarations, and is a
violation (2 > 1). -/
theorem c7_amended_roundtrip_witness :
    read_text_with_fallback (utf8Bom ++ utf8Encode (cpsOf ("class A {}\nenum B {}\n")))
        = .ok (cpsOf ("class A {}\nenum B {}\n"))
    ∧ check_file (utf8Bom ++ utf8Encode (cpsOf ("class A {}\nenum B {}\n"))) = .ok 2
    ∧ 1 < 2 :=
  ⟨c7_amended_roundtrip (cpsOf ("class A {}\nenum B {}\n")) (by decide) (by decide),
    rfl, by decide⟩

/-- C8: the counter follows universal newline conventions — three
declaration lines terminated by `\n`, `\r\n` and bare `\r` respectively
count exactly 3. -/
theorem c8_mixed_line_endings (l1 l2 l3 : List Nat)
    (m1 : declarationReMatch l1 = true) (m2 : declarationReMatch l2 = true)
    (m3 : declarationReMatch l3 = true)
    (n1 : ∀ c ∈ l1, isLineBreakCp c = false)
    (n2 : ∀ c ∈ l2, isLineBreakCp c = false)
    (n3 : ∀ c ∈ l3, isLineBreakCp c = false) :
    countDeclarations (l1 ++ 10 :: (l2 ++ 13 :: 10 :: (l3 ++ [13]))) = 3 := by
  have hsplit : pySplitlines (l1 ++ 10 :: (l2 ++ 13 :: 10 :: (l3 ++ [13])))
      = [l1, l2, l3] := by
    unfold pySplitlines
    rw [splitGo_lf l1 n1, splitGo_crlf l2 n2, splitGo_cr_end l3 n3]
    simp
  have hne : l1 ++ 10 :: (l2 ++ 13 :: 10 :: (l3 ++ [13])) ≠ [] := by simp
  rw [countDeclarations, if_neg hne, hsplit]
  simp [List.countP_cons, m1, m2, m3]

theorem c8_mixed_line_endings_witness :
    (declarationReMatch (cpsOf ("class A {}")) = true
      ∧ declarationReMatch (cpsOf ("struct B {}")) = true
      ∧ declarationReMatch (cpsOf ("enum C {}")) = true)
    ∧ countDeclarations (cpsOf ("class A {}") ++ 10 ::
        (cpsOf ("struct B {}") ++ 13 :: 10 :: (cpsOf ("enum C {}") ++ [13]))) = 3 :=
  ⟨⟨by decide, by decide, by decide⟩,
    c8_mixed_line_endings (cpsOf ("class A {}")) (cpsOf ("struct B {}"))
      (cpsOf ("enum C {}")) (by decide) (by decide) (by decide)
      (by decide) (by decide) (by decide)⟩

/-- C9: when the run completes, the violation list is exactly the scanned
files whose declaration count exceeds one, and the exit code is `0` iff
there is no violation and `1` iff there is at least one. -/
theorem c9_exit_codes (files : List (String × List Nat)) (errs : List (String × Nat))
    (code : Nat) (h : mainRun files = .ok (errs, code)) :
    errs = files.filterMap violationOf
    ∧ (code = 0 ↔ ∀ pr ∈ files, ∀ c, check_file pr.2 = .ok c → c ≤ 1)
    ∧ (code = 1 ↔ ∃ pr ∈ files, ∃ c, check_file pr.2 = .ok c ∧ 1 < c) := by
  obtain ⟨he, hcode⟩ := mainRun_ok files errs code h
  have hnone : ∀ pr : String × List Nat,
      (violationOf pr = none ↔ ∀ c, check_file pr.2 = .ok c → c ≤ 1) := by
    intro pr
    unfold violationOf
    cases hc : check_file pr.2 with
    | error e =>
      constructor
      · intro _ c hcc
        cases hcc
      · intro _
        rfl
    | ok c =>
      show (if c > 1 then some (pr.1, c) else none) = none
        ↔ ∀ c2, Except.ok c = Except.ok c2 → c2 ≤ 1
      by_cases h1 : c > 1
      · rw [if_pos h1]
        constructor
        · intro hcc
          cases hcc
        · intro hall
          exact absurd (hall c rfl) (by omega)
      · rw [if_neg h1]
        constructor
        · intro _ c2 hcc
          cases hcc
          omega
        · intro _
          rfl
  have hiff : errs.isEmpty = true
      ↔ ∀ pr ∈ files, ∀ c, check_file pr.2 = .ok c → c ≤ 1 := by
    rw [List.isEmpty_iff, he, List.filterMap_eq_nil_iff]
    constructor
    · intro hall pr hpr
      exact (hnone pr).mp (hall pr hpr)
    · intro hall pr hpr
      exact (hnone pr).mpr (hall pr hpr)
  have hneg : (∃ pr ∈ files, ∃ c, check_file pr.2 = .ok c ∧ 1 < c)
      ↔ ¬(∀ pr ∈ files, ∀ c, check_file pr.2 = .ok c → c ≤ 1) := by
    constructor
    · rintro ⟨pr, hpr, c, hcc, hlt⟩ hall
      exact absurd (hall pr hpr c hcc) (by omega)
    · intro hnall
      push_neg at hnall
      obtain ⟨pr, hpr, c, hcc, hlt⟩ := hnall
      exact ⟨pr, hpr, c, hcc, hlt⟩
  refine ⟨he, ?_, ?_⟩
  · rw [hcode]
    by_cases hemp : errs.isEmpty = true
    · rw [if_pos hemp]
      exact ⟨fun _ => hiff.mp hemp, fun _ => rfl⟩
    · rw [if_neg hemp]
      constructor
      · intro h10
        cases h10
      · intro hall
        exact absurd (hiff.mpr hall) hemp
  · rw [hcode]
    by_cases hemp : errs.isEmpty = true
    · rw [if_pos hemp]
      constructor
      · intro h01
        cases h01
      · intro hex
        exact absurd (hiff.mp hemp) (hneg.mp hex)
    · rw [if_neg hemp]
      constructor
      · intro _
        exact hneg.mpr fun hall => hemp (hiff.mpr hall)
      · intro _
        rfl

theorem c9_exit_codes_witness :
    ([("A.cs", 2)] : List (String × Nat))
        = [("A.cs", cpsOf ("class A {}\nstruct B {}\n"))].filterMap violationOf
    ∧ ((1 : Nat) = 0 ↔ ∀ pr ∈ [("A.cs", cpsOf ("class A {}\nstruct B {}\n"))],
        ∀ c, check_file pr.2 = .ok c → c ≤ 1)
    ∧ ((1 : Nat) = 1 ↔ ∃ pr ∈ [("A.cs", cpsOf ("class A {}\nstruct B {}\n"))],
        ∃ c, check_file pr.2 = .ok c ∧ 1 < c) :=
  c9_exit_codes [("A.cs", cpsOf ("class A {}\nstruct B {}\n"))] [("A.cs", 2)] 1 rfl

/-- C10: the empty byte string is not caught by the binary heuristic (it
requires non-empty input), has no BOM, and strict UTF-8 decoding of zero
bytes yields the empty text, so a zero-byte file decodes without error,
counts zero declarations, and a run over it succeeds with no violation
and exit code 0. -/
theorem c10_empty_file :
    read_text_with_fallback [] = .ok []
    ∧ check_file [] = .ok 0
    ∧ mainRun [("Empty.cs", [])] = .ok ([], 0) :=
  ⟨rfl, rfl, rfl⟩

end CheckOneType
